import Mathlib

/-!
Verification of the CyberMetric evaluation harness
(`lib/CyberMetricEvaluator.py` and its adapters) against its
natural-language specification.

Strings are modelled as lists of characters (`Str`).  The Python
functions `extract_answer`, `ask_llm`, `get_evaluation_results` and
`run_evaluation` are shallowly embedded below; the injected client
adapter (the pair `query_client` / `get_client_response`) is modelled
as a function from the attempt number to an `AttemptOutcome`, which
records whether the send call raised, returned a falsy output, or
returned a truthy output together with the text extracted from it
(`none` models `get_client_response` returning Python `None`).
-/

/-- Python strings, modelled as lists of characters. -/
abbrev Str := List Char

/-- The ASCII whitespace characters removed by Python `str.strip()`. -/
def pyIsSpace (c : Char) : Bool :=
  c ∈ [' ', '\t', '\n', '\r', '\x0b', '\x0c']

/-- The characters matched by the pattern `[A-D]` compiled with
`re.IGNORECASE`, as used in `extract_answer`. -/
def reMatchAD (c : Char) : Bool :=
  c ∈ ['A', 'B', 'C', 'D', 'a', 'b', 'c', 'd']

/-- Python `str.lstrip()` restricted to ASCII whitespace. -/
def lstrip (s : Str) : Str := s.dropWhile pyIsSpace

/-- Python `str.rstrip()` restricted to ASCII whitespace. -/
def rstrip (s : Str) : Str := (s.reverse.dropWhile pyIsSpace).reverse

/-- Python `str.strip()` restricted to ASCII whitespace. -/
def pyStrip (s : Str) : Str := rstrip (lstrip s)

/-- Embedding of `CyberMetricEvaluator.extract_answer` (lines 32-47):
if the stripped response is truthy, search it for the first character
matching `[A-D]` case-insensitively and return that one-character match
uppercased; otherwise return `None`. -/
def extract_answer (response : Str) : Option Str :=
  if (pyStrip response).isEmpty then none
  else
    match (pyStrip response).find? reMatchAD with
    | some c => some [c.toUpper]
    | none => none

lemma find?_dropWhile_of_disjoint (p q : Char → Bool) (l : List Char)
    (h : ∀ c, q c = true → p c = false) :
    (l.dropWhile q).find? p = l.find? p := by
  induction l with
  | nil => rfl
  | cons c t ih =>
    by_cases hq : q c = true
    · rw [List.dropWhile_cons_of_pos hq, ih, List.find?_cons_of_neg]
      simp [h c hq]
    · rw [List.dropWhile_cons_of_neg hq]

lemma find?_append_of_right_none (p : Char → Bool) (l₁ l₂ : List Char)
    (h : ∀ c ∈ l₂, p c = false) :
    (l₁ ++ l₂).find? p = l₁.find? p := by
  induction l₁ with
  | nil =>
    simp only [List.nil_append, List.find?_nil]
    exact List.find?_eq_none.mpr (fun x hx => by simp [h x hx])
  | cons c t ih =>
    by_cases hp : p c = true
    · rw [List.cons_append, List.find?_cons_of_pos _ hp, List.find?_cons_of_pos _ hp]
    · rw [List.cons_append, List.find?_cons_of_neg _ hp, List.find?_cons_of_neg _ hp, ih]

lemma rstrip_decomp (l : List Char) :
    ∃ t, l = rstrip l ++ t ∧ ∀ c ∈ t, pyIsSpace c = true := by
  refine ⟨(l.reverse.takeWhile pyIsSpace).reverse, ?_, ?_⟩
  · conv_lhs => rw [← l.reverse_reverse,
      ← List.takeWhile_append_dropWhile (p := pyIsSpace) (l := l.reverse)]
    rw [List.reverse_append]
    rfl
  · intro c hc
    rw [List.mem_reverse] at hc
    exact List.mem_takeWhile_imp hc

lemma pyIsSpace_not_reMatchAD (c : Char) (h : pyIsSpace c = true) :
    reMatchAD c = false := by
  simp only [pyIsSpace, List.mem_cons, decide_eq_true_eq,
    List.not_mem_nil, or_false] at h
  rcases h with rfl | rfl | rfl | rfl | rfl | rfl <;> decide

lemma find?_pyStrip (s : Str) :
    (pyStrip s).find? reMatchAD = s.find? reMatchAD := by
  obtain ⟨t, ht, hws⟩ := rstrip_decomp (lstrip s)
  have h1 : (lstrip s).find? reMatchAD = (pyStrip s).find? reMatchAD := by
    conv_lhs => rw [ht]
    exact find?_append_of_right_none _ _ _
      (fun c hc => pyIsSpace_not_reMatchAD c (hws c hc))
  rw [← h1]
  exact find?_dropWhile_of_disjoint _ _ _ pyIsSpace_not_reMatchAD

/-- Claim C1: for every input string, `extract_answer` returns exactly the
uppercased form of the first letter of the input (in reading order) that
matches `[A-D]` case-insensitively, and returns `None` when the input is
empty, whitespace-only, or contains no such letter.  Stated as an equality
with the first-match specification over the untrimmed input. -/
theorem extract_answer_first_match (s : Str) :
    extract_answer s = (s.find? reMatchAD).map (fun c => [c.toUpper]) := by
  unfold extract_answer
  by_cases h : (pyStrip s).isEmpty
  · rw [if_pos h, ← find?_pyStrip s]
    have h0 : pyStrip s = [] := by simpa [List.isEmpty_iff] using h
    rw [h0]
    rfl
  · rw [if_neg h, ← find?_pyStrip s]
    cases hf : (pyStrip s).find? reMatchAD <;> rfl

example : extract_answer ("B, not A".data) = some ['B'] := by decide
example : extract_answer ("  d".data) = some ['D'] := by decide
example : extract_answer ("  \t ".data) = none := by decide
example : extract_answer [] = none := by decide

/-- Outcome of one attempt of the retry loop in `ask_llm` (lines 94-113),
from the point of view of the evaluation engine: the `query_client` call
either raises, or returns a falsy output, or returns a truthy output from
which `get_client_response` extracts either a text or Python `None`
(modelled as `none`). -/
inductive AttemptOutcome
  | raises
  | falsy
  | truthy (extracted : Option Str)
deriving DecidableEq

/-- Observable result of one `ask_llm` call: the returned answer, the
number of `query_client` (send) invocations made, and the list of
`time.sleep` calls performed, each recorded as the pair
(attempt number, duration `2 ^ attempt`). -/
structure AskResult where
  answer : Option Str
  sends : Nat
  waits : List (Nat × Nat)
deriving DecidableEq

/-- The body of the `for attempt in range(max_retries)` loop of `ask_llm`
(lines 94-113), indexed by the current attempt number and the number of
remaining iterations.  Note that when the output is truthy but the
extracted text is Python `None`, the call
`extract_answer(response=None)` raises an `AttributeError`
(`None` has no `strip` method), which is caught by the generic
`except Exception` handler, so that branch sleeps `2 ^ attempt` exactly
like a raising send. -/
def askLoop (A : Nat → AttemptOutcome) : Nat → Nat → AskResult
  | _, 0 => ⟨none, 0, []⟩
  | a, rem + 1 =>
    match A a with
    | AttemptOutcome.raises =>
      let r := askLoop A (a + 1) rem
      ⟨r.answer, r.sends + 1, (a, 2 ^ a) :: r.waits⟩
    | AttemptOutcome.falsy =>
      let r := askLoop A (a + 1) rem
      ⟨r.answer, r.sends + 1, r.waits⟩
    | AttemptOutcome.truthy none =>
      let r := askLoop A (a + 1) rem
      ⟨r.answer, r.sends + 1, (a, 2 ^ a) :: r.waits⟩
    | AttemptOutcome.truthy (some s) =>
      match extract_answer s with
      | some res =>
        if !res.isEmpty && res.length == 1 then ⟨some res, 1, []⟩
        else
          let r := askLoop A (a + 1) rem
          ⟨r.answer, r.sends + 1, r.waits⟩
      | none =>
        let r := askLoop A (a + 1) rem
        ⟨r.answer, r.sends + 1, r.waits⟩

/-- Embedding of `CyberMetricEvaluator.ask_llm` (lines 50-114): run the
retry loop starting at attempt 0 for `range(max_retries)` iterations
(an empty range when `max_retries` is not positive), then return `None`. -/
def ask_llm (A : Nat → AttemptOutcome) (max_retries : Int) : AskResult :=
  askLoop A 0 max_retries.toNat

/-- An attempt raises inside the try block exactly when the send call
raises or when the send output is truthy but the extracted text is
Python `None` (the `AttributeError` case). -/
def attemptRaisesLike : AttemptOutcome → Bool
  | AttemptOutcome.raises => true
  | AttemptOutcome.truthy none => true
  | _ => false

/-- An attempt succeeds (returns from `ask_llm`) exactly when the send
output is truthy and `extract_answer` applied to the extracted text
yields a nonempty result of length one. -/
def attemptSuccess : AttemptOutcome → Bool
  | AttemptOutcome.truthy (some s) =>
    match extract_answer s with
    | some res => !res.isEmpty && res.length == 1
    | none => false
  | _ => false

lemma askLoop_raises {A : Nat → AttemptOutcome} {a : Nat} (rem : Nat)
    (h : A a = AttemptOutcome.raises) :
    askLoop A a (rem + 1) =
      ⟨(askLoop A (a + 1) rem).answer, (askLoop A (a + 1) rem).sends + 1,
        (a, 2 ^ a) :: (askLoop A (a + 1) rem).waits⟩ := by
  simp [askLoop, h]

lemma askLoop_falsy {A : Nat → AttemptOutcome} {a : Nat} (rem : Nat)
    (h : A a = AttemptOutcome.falsy) :
    askLoop A a (rem + 1) =
      ⟨(askLoop A (a + 1) rem).answer, (askLoop A (a + 1) rem).sends + 1,
        (askLoop A (a + 1) rem).waits⟩ := by
  simp [askLoop, h]

lemma askLoop_truthy_none {A : Nat → AttemptOutcome} {a : Nat} (rem : Nat)
    (h : A a = AttemptOutcome.truthy none) :
    askLoop A a (rem + 1) =
      ⟨(askLoop A (a + 1) rem).answer, (askLoop A (a + 1) rem).sends + 1,
        (a, 2 ^ a) :: (askLoop A (a + 1) rem).waits⟩ := by
  simp [askLoop, h]

lemma askLoop_badformat {A : Nat → AttemptOutcome} {a : Nat} (rem : Nat) {s : Str}
    (h : A a = AttemptOutcome.truthy (some s))
    (hs : extract_answer s = none) :
    askLoop A a (rem + 1) =
      ⟨(askLoop A (a + 1) rem).answer, (askLoop A (a + 1) rem).sends + 1,
        (askLoop A (a + 1) rem).waits⟩ := by
  simp [askLoop, h, hs]

lemma askLoop_success {A : Nat → AttemptOutcome} {a : Nat} (rem : Nat) {s : Str} {res : Str}
    (h : A a = AttemptOutcome.truthy (some s))
    (hs : extract_answer s = some res)
    (hres : (!res.isEmpty && res.length == 1) = true) :
    askLoop A a (rem + 1) = ⟨some res, 1, []⟩ := by
  simp [askLoop, h, hs, hres]

/-- The four multiple-choice options of a dataset record, keyed
A, B, C, D in the dataset file. -/
structure Answers where
  optA : Str
  optB : Str
  optC : Str
  optD : Str
deriving DecidableEq

/-- One record of the dataset's `questions` array:
question text, the four options, and the `solution` field. -/
structure Question where
  question : Str
  answers : Answers
  solution : Str
deriving DecidableEq

/-- One entry of the `incorrect_answers` list built by `run_evaluation`
(lines 186-190): the question text, the record's `solution`, and the
answer returned by `ask_llm` (possibly Python `None`). -/
structure Mistake where
  question : Str
  correct_answer : Str
  llm_answer : Option Str
deriving DecidableEq

/-- The mutable state of the `run_evaluation` loop: the tqdm progress
counter `progress_bar.n`, `correct_count`, `incorrect_answers`, and the
sequence of running accuracy figures emitted via `set_postfix_str`. -/
structure RunState where
  pbar : Nat
  correct : Nat
  mistakes : List Mistake
  accs : List ℚ
deriving DecidableEq

/-- One iteration of the `run_evaluation` loop (lines 177-194): ask the
LLM with the default `max_retries = 5`, tally the answer, emit the
running accuracy `correct_count / (progress_bar.n + 1) * 100`, then
advance the progress bar. -/
def processQ (A : Question → Nat → AttemptOutcome) (st : RunState) (q : Question) :
    RunState :=
  if (ask_llm (A q) 5).answer = some q.solution then
    ⟨st.pbar + 1, st.correct + 1, st.mistakes,
      st.accs ++ [((st.correct + 1 : Nat) : ℚ) / ((st.pbar : ℚ) + 1) * 100]⟩
  else
    ⟨st.pbar + 1, st.correct,
      st.mistakes ++ [⟨q.question, q.solution, (ask_llm (A q) 5).answer⟩],
      st.accs ++ [((st.correct : Nat) : ℚ) / ((st.pbar : ℚ) + 1) * 100]⟩

/-- The `for item in questions_data` loop of `run_evaluation`. -/
def runLoop (A : Question → Nat → AttemptOutcome) (st : RunState) :
    List Question → RunState
  | [] => st
  | q :: qs => runLoop A (processQ A st q) qs

/-- State of the evaluation after the `run_evaluation` loop has processed
the whole question list, starting from the initial zero/empty state. -/
def runEvalState (A : Question → Nat → AttemptOutcome) (qs : List Question) :
    RunState :=
  runLoop A ⟨0, 0, [], []⟩ qs

/-- Exceptions that can escape `run_evaluation`. -/
inductive EvalErr
  | zeroDivision
deriving DecidableEq

/-- Embedding of `get_evaluation_results` (lines 117-134), reduced to its
accuracy computation: `correct_count / questions_count * 100` raises
`ZeroDivisionError` when `questions_count` is zero. -/
def get_evaluation_results (questions_count correct_count : Nat) : Except EvalErr ℚ :=
  if questions_count = 0 then Except.error EvalErr.zeroDivision
  else Except.ok ((correct_count : Nat) / (questions_count : ℚ) * 100)

/-- The report assembled at the end of a successful `run_evaluation`:
the accuracy figure, the final tallies, the mistakes list, and whether
the results were persisted to disk (the `save_evaluation` flag). -/
structure Report where
  accuracy : ℚ
  correct : Nat
  asked : Nat
  mistakes : List Mistake
  persisted : Bool
deriving DecidableEq

/-- Embedding of `run_evaluation` (lines 161-208): process every question,
then compute the results snapshot; with an empty dataset the accuracy
division raises `ZeroDivisionError` before anything is displayed or
recorded, so no report exists in that case. -/
def run_evaluation (A : Question → Nat → AttemptOutcome) (qs : List Question)
    (save_evaluation : Bool) : Except EvalErr Report :=
  match get_evaluation_results qs.length (runEvalState A qs).correct with
  | Except.error e => Except.error e
  | Except.ok acc =>
    Except.ok ⟨acc, (runEvalState A qs).correct, qs.length,
      (runEvalState A qs).mistakes, save_evaluation⟩

/-- The literal question of the spec's end-to-end scenario. -/
def q22 : Question :=
  ⟨"2+2?".data, ⟨"3".data, "4".data, "5".data, "6".data⟩, "B".data⟩

/-- Stub adapter of the end-to-end scenario: every send succeeds on the
first attempt with extracted text "The answer is B because...". -/
def scenarioA : Question → Nat → AttemptOutcome :=
  fun _ _ => AttemptOutcome.truthy (some ("The answer is B because...".data))

/-- Stub adapter whose send raises on every attempt, for every question. -/
def alwaysRaise : Question → Nat → AttemptOutcome :=
  fun _ _ => AttemptOutcome.raises

/-- Stub adapter whose send succeeds with truthy output on every attempt
while the extracted text is always Python `None`. -/
def absentTextA : Nat → AttemptOutcome :=
  fun _ => AttemptOutcome.truthy none

example : (ask_llm (scenarioA q22) 5).answer = some ['A'] := by decide
example : (ask_llm (scenarioA q22) 5).sends = 1 := by decide
example : (ask_llm (alwaysRaise q22) 5) =
    ⟨none, 5, [(0, 1), (1, 2), (2, 4), (3, 8), (4, 16)]⟩ := by decide
example : (ask_llm absentTextA 2).waits = [(0, 1), (1, 2)] := by decide
example : (runEvalState alwaysRaise [q22]).mistakes =
    [⟨"2+2?".data, "B".data, none⟩] := by decide

instance instDecEqExceptEval {ε α : Type} [DecidableEq ε] [DecidableEq α] :
    DecidableEq (Except ε α) := fun a b =>
  match a, b with
  | Except.error e, Except.error f =>
    if h : e = f then Decidable.isTrue (by rw [h])
    else Decidable.isFalse (by simp [h])
  | Except.error _, Except.ok _ => Decidable.isFalse (by simp)
  | Except.ok _, Except.error _ => Decidable.isFalse (by simp)
  | Except.ok x, Except.ok y =>
    if h : x = y then Decidable.isTrue (by rw [h])
    else Decidable.isFalse (by simp [h])

/-- Claim C7: for an empty question list, `run_evaluation` raises
(`ZeroDivisionError`, from `correct_count / questions_count` in
`get_evaluation_results`) and the exception propagates uncaught before
any report is displayed or persisted, so no report is produced. -/
theorem run_evaluation_empty_raises (A : Question → Nat → AttemptOutcome)
    (save : Bool) :
    run_evaluation A [] save = Except.error EvalErr.zeroDivision := rfl

/-- Claim C10: with a non-positive `max_retries`, the `range(max_retries)`
loop of `ask_llm` is empty, so `ask_llm` returns `None` without a single
send invocation and without any wait. -/
theorem ask_llm_nonpos_retries (A : Nat → AttemptOutcome) (m : Int)
    (h : m ≤ 0) :
    ask_llm A m = ⟨none, 0, []⟩ := by
  unfold ask_llm
  rw [Int.toNat_of_nonpos h]
  rfl

/-- Witness for claim C10 at the concrete value `max_retries = -3`. -/
theorem ask_llm_nonpos_retries_witness :
    ask_llm absentTextA (-3) = ⟨none, 0, []⟩ :=
  ask_llm_nonpos_retries absentTextA (-3) (by decide)

/-- Counterexample to claim C2 as stated: in the spec's literal
end-to-end scenario the extracted text "The answer is B because..."
contains the letter a (of the word answer) before the letter B, and
`extract_answer` matches `[A-D]` case-insensitively, so `ask_llm`
returns "A", not "B", and the run records a mistake instead of a
correct answer. -/
theorem scenario_returns_A_not_B :
    (ask_llm (scenarioA q22) 5).answer = some ['A'] ∧
    (runEvalState scenarioA [q22]).correct = 0 ∧
    (runEvalState scenarioA [q22]).mistakes =
      [⟨"2+2?".data, "B".data, some ['A']⟩] := by
  decide

/-- Claim C2 (amended): in the literal scenario, `ask_llm` returns "A"
(the uppercased first `[A-D]` match in "The answer is B because...",
namely the a of answer) after exactly one send invocation, and the run
ends with `correct_count = 0`, one question asked, the question recorded
as a mistake with llm answer "A", and report accuracy 0. -/
theorem scenario_run_results :
    (ask_llm (scenarioA q22) 5).answer = some ['A'] ∧
    (ask_llm (scenarioA q22) 5).sends = 1 ∧
    run_evaluation scenarioA [q22] true =
      Except.ok ⟨0, 0, 1, [⟨"2+2?".data, "B".data, some ['A']⟩], true⟩ := by
  refine ⟨by decide, by decide, ?_⟩
  have h1 : (runEvalState scenarioA [q22]).correct = 0 := by decide
  have h2 : (runEvalState scenarioA [q22]).mistakes =
      [⟨"2+2?".data, "B".data, some ['A']⟩] := by decide
  simp only [run_evaluation, get_evaluation_results, h1, h2, List.length_cons,
    List.length_nil, Nat.zero_add, if_neg (by decide : ¬ (1 : Nat) = 0)]
  norm_num

/-- Counterexample to claim C3 as stated: with an adapter whose send
succeeds with truthy output while the extracted text is absent, the
(single-attempt) `ask_llm` call performs the backoff wait `2 ^ 0 = 1`,
although claim C3 says this branch continues without any backoff wait. -/
theorem absent_text_causes_backoff :
    (ask_llm absentTextA 1).waits = [(0, 1)] ∧
    absentTextA 0 = AttemptOutcome.truthy none ∧
    (ask_llm absentTextA 1).answer = none := by
  decide

/-- Claim C3 (amended): when the send output is truthy but the extracted
text is absent, `extract_answer(response=None)` raises `AttributeError`
inside the try block; the generic `except Exception` handler catches it,
so the attempt waits `2 ^ attempt` (the exponential-backoff path) and
then continues with the next attempt — this case is not routed through
the no-wait bad-format branch. -/
theorem absent_text_attempt_step (A : Nat → AttemptOutcome) (a rem : Nat)
    (h : A a = AttemptOutcome.truthy none) :
    askLoop A a (rem + 1) =
      ⟨(askLoop A (a + 1) rem).answer, (askLoop A (a + 1) rem).sends + 1,
        (a, 2 ^ a) :: (askLoop A (a + 1) rem).waits⟩ :=
  askLoop_truthy_none rem h

/-- Witness for the amended claim C3 at a concrete adapter and attempt. -/
theorem absent_text_attempt_step_witness :
    askLoop absentTextA 0 1 =
      ⟨(askLoop absentTextA 1 0).answer, (askLoop absentTextA 1 0).sends + 1,
        (0, 2 ^ 0) :: (askLoop absentTextA 1 0).waits⟩ :=
  absent_text_attempt_step absentTextA 0 0 rfl

lemma runLoop_count (A : Question → Nat → AttemptOutcome) :
    ∀ (qs : List Question) (st : RunState),
    (runLoop A st qs).correct + (runLoop A st qs).mistakes.length =
      st.correct + st.mistakes.length + qs.length := by
  intro qs
  induction qs with
  | nil => intro st; simp [runLoop]
  | cons q t ih =>
    intro st
    simp only [runLoop]
    rw [ih]
    unfold processQ
    by_cases hc : (ask_llm (A q) 5).answer = some q.solution
    · rw [if_pos hc]
      simp only [List.length_cons]
      omega
    · rw [if_neg hc]
      simp only [List.length_append, List.length_cons, List.length_nil]
      omega

/-- Claim C6: after each processed question the number of questions
processed so far equals `correct_count` plus the length of
`incorrect_answers` (stated for every prefix of the dataset, the loop
state after `i` iterations being exactly the state over the length-`i`
prefix), and at run end that number equals the dataset size. -/
theorem scoreboard_invariant (A : Question → Nat → AttemptOutcome)
    (qs : List Question) (i : Nat) (h : i ≤ qs.length) :
    (runEvalState A (qs.take i)).correct +
        (runEvalState A (qs.take i)).mistakes.length = i ∧
    (runEvalState A qs).correct +
        (runEvalState A qs).mistakes.length = qs.length := by
  constructor
  · have hl := runLoop_count A (qs.take i) ⟨0, 0, [], []⟩
    simpa [runEvalState, List.length_take, Nat.min_eq_left h] using hl
  · simpa [runEvalState] using runLoop_count A qs ⟨0, 0, [], []⟩

/-- Witness for claim C6 on a concrete one-question run. -/
theorem scoreboard_invariant_witness :
    (runEvalState alwaysRaise ([q22].take 1)).correct +
        (runEvalState alwaysRaise ([q22].take 1)).mistakes.length = 1 ∧
    (runEvalState alwaysRaise [q22]).correct +
        (runEvalState alwaysRaise [q22]).mistakes.length = [q22].length :=
  scoreboard_invariant alwaysRaise [q22] 1 (by decide)

lemma askLoop_allraise {A : Nat → AttemptOutcome}
    (h : ∀ n, A n = AttemptOutcome.raises) :
    ∀ (rem a : Nat),
    (askLoop A a rem).answer = none ∧ (askLoop A a rem).sends = rem := by
  intro rem
  induction rem with
  | zero => intro a; exact ⟨rfl, rfl⟩
  | succ rem ih =>
    intro a
    rw [askLoop_raises rem (h a)]
    exact ⟨(ih (a + 1)).1, by rw [(ih (a + 1)).2]⟩

lemma runLoop_allraise {A : Question → Nat → AttemptOutcome}
    (h : ∀ q n, A q n = AttemptOutcome.raises) :
    ∀ (qs : List Question) (st : RunState),
    (runLoop A st qs).correct = st.correct ∧
    (runLoop A st qs).mistakes =
      st.mistakes ++ qs.map (fun q => ⟨q.question, q.solution, none⟩) := by
  intro qs
  induction qs with
  | nil => intro st; simp [runLoop]
  | cons q t ih =>
    intro st
    simp only [runLoop]
    have hans : (ask_llm (A q) 5).answer = none :=
      (askLoop_allraise (h q) ((5 : Int).toNat) 0).1
    have hstep : processQ A st q =
        ⟨st.pbar + 1, st.correct,
          st.mistakes ++ [⟨q.question, q.solution, (ask_llm (A q) 5).answer⟩],
          st.accs ++ [((st.correct : Nat) : ℚ) / ((st.pbar : ℚ) + 1) * 100]⟩ := by
      unfold processQ
      rw [if_neg (by simp [hans])]
    rw [hstep]
    refine ⟨(ih _).1, ?_⟩
    rw [(ih _).2]
    simp [hans, List.append_assoc]

lemma run_evaluation_ok (A : Question → Nat → AttemptOutcome)
    (qs : List Question) (save : Bool) (h : qs ≠ []) :
    run_evaluation A qs save =
      Except.ok ⟨((runEvalState A qs).correct : ℚ) / (qs.length : ℚ) * 100,
        (runEvalState A qs).correct, qs.length, (runEvalState A qs).mistakes,
        save⟩ := by
  unfold run_evaluation get_evaluation_results
  rw [if_neg (by simpa using h)]

/-- Claim C4: with an adapter whose send raises on every attempt,
`ask_llm` makes exactly `max_retries` send invocations (`maxAttempts`,
instantiable at the default 5) and then returns `None`; `run_evaluation`
records every question as a mistake whose llm answer is `None`, counts
no question correct, and (for a non-empty dataset) still completes and
produces its report — the failures never abort the run. -/
theorem retry_exhaustion (A : Question → Nat → AttemptOutcome)
    (qs : List Question) (m : Int)
    (h : ∀ q n, A q n = AttemptOutcome.raises) :
    (∀ q, (ask_llm (A q) m).sends = m.toNat ∧ (ask_llm (A q) m).answer = none) ∧
    (runEvalState A qs).mistakes =
      qs.map (fun q => ⟨q.question, q.solution, none⟩) ∧
    (runEvalState A qs).correct = 0 ∧
    (qs ≠ [] → ∃ r, run_evaluation A qs true = Except.ok r) := by
  refine ⟨fun q => ⟨(askLoop_allraise (h q) m.toNat 0).2,
    (askLoop_allraise (h q) m.toNat 0).1⟩, ?_, ?_, ?_⟩
  · simpa [runEvalState] using (runLoop_allraise h qs ⟨0, 0, [], []⟩).2
  · simpa [runEvalState] using (runLoop_allraise h qs ⟨0, 0, [], []⟩).1
  · intro hne
    exact ⟨_, run_evaluation_ok A qs true hne⟩

/-- Witness for claim C4 on a concrete one-question run with
`max_retries = 5`. -/
theorem retry_exhaustion_witness :
    (ask_llm (alwaysRaise q22) 5).sends = (5 : Int).toNat ∧
    (ask_llm (alwaysRaise q22) 5).answer = none ∧
    (runEvalState alwaysRaise [q22]).mistakes =
      [q22].map (fun q => ⟨q.question, q.solution, none⟩) ∧
    (∃ r, run_evaluation alwaysRaise [q22] true = Except.ok r) :=
  ⟨((retry_exhaustion alwaysRaise [q22] 5 (fun _ _ => rfl)).1 q22).1,
   ((retry_exhaustion alwaysRaise [q22] 5 (fun _ _ => rfl)).1 q22).2,
   (retry_exhaustion alwaysRaise [q22] 5 (fun _ _ => rfl)).2.1,
   (retry_exhaustion alwaysRaise [q22] 5 (fun _ _ => rfl)).2.2.2 (by decide)⟩

lemma askLoop_badlen {A : Nat → AttemptOutcome} {a : Nat} (rem : Nat)
    {s res : Str} (h : A a = AttemptOutcome.truthy (some s))
    (hs : extract_answer s = some res)
    (hres : (!res.isEmpty && res.length == 1) = false) :
    askLoop A a (rem + 1) =
      ⟨(askLoop A (a + 1) rem).answer, (askLoop A (a + 1) rem).sends + 1,
        (askLoop A (a + 1) rem).waits⟩ := by
  simp [askLoop, h, hs, hres]

lemma extract_answer_shape {s r : Str} (h : extract_answer s = some r) :
    ∃ c, r = [c] ∧ c ∈ ['A', 'B', 'C', 'D'] := by
  rw [extract_answer_first_match] at h
  cases hf : s.find? reMatchAD with
  | none => rw [hf] at h; exact absurd h (by simp)
  | some c =>
    rw [hf] at h
    have hr : r = [c.toUpper] := by
      simpa using h.symm
    have hc : reMatchAD c = true := List.find?_some hf
    refine ⟨c.toUpper, hr, ?_⟩
    simp only [reMatchAD, List.mem_cons, decide_eq_true_eq,
      List.not_mem_nil, or_false] at hc
    rcases hc with rfl | rfl | rfl | rfl | rfl | rfl | rfl | rfl <;> decide

lemma askLoop_answer_shape {A : Nat → AttemptOutcome} :
    ∀ (rem a : Nat) {r : Str}, (askLoop A a rem).answer = some r →
      ∃ c, r = [c] ∧ c ∈ ['A', 'B', 'C', 'D'] := by
  intro rem
  induction rem with
  | zero => intro a r h; exact absurd h (by simp [askLoop])
  | succ rem ih =>
    intro a r h
    cases hA : A a with
    | raises => rw [askLoop_raises rem hA] at h; exact ih (a + 1) h
    | falsy => rw [askLoop_falsy rem hA] at h; exact ih (a + 1) h
    | truthy ext =>
      cases ext with
      | none => rw [askLoop_truthy_none rem hA] at h; exact ih (a + 1) h
      | some s =>
        cases hs : extract_answer s with
        | none => rw [askLoop_badformat rem hA hs] at h; exact ih (a + 1) h
        | some res =>
          by_cases hres : (!res.isEmpty && res.length == 1) = true
          · rw [askLoop_success rem hA hs hres] at h
            obtain ⟨c, hc1, hc2⟩ := extract_answer_shape hs
            have hr : res = r := by simpa using h
            exact ⟨c, hr ▸ hc1, hc2⟩
          · rw [askLoop_badlen rem hA hs (by simpa using hres)] at h
            exact ih (a + 1) h

lemma runLoop_mistakes_mem {A : Question → Nat → AttemptOutcome} :
    ∀ (qs : List Question) (st : RunState) (mk : Mistake),
      mk ∈ (runLoop A st qs).mistakes →
      mk ∈ st.mistakes ∨
        ∃ q ∈ qs, mk = ⟨q.question, q.solution, (ask_llm (A q) 5).answer⟩ := by
  intro qs
  induction qs with
  | nil => intro st mk h; exact Or.inl h
  | cons q t ih =>
    intro st mk h
    simp only [runLoop] at h
    rcases ih _ mk h with hin | ⟨q', hq', heq⟩
    · unfold processQ at hin
      by_cases hc : (ask_llm (A q) 5).answer = some q.solution
      · rw [if_pos hc] at hin
        exact Or.inl hin
      · rw [if_neg hc] at hin
        simp only [List.mem_append, List.mem_singleton] at hin
        rcases hin with hin | rfl
        · exact Or.inl hin
        · exact Or.inr ⟨q, List.mem_cons_self q t, rfl⟩
    · exact Or.inr ⟨q', List.mem_cons_of_mem _ hq', heq⟩

/-- Claim C8: assuming every dataset record's solution is one of the
four one-letter strings A, B, C, D, every entry of `incorrect_answers`
has a `correct_answer` among those strings, and an `llm_answer` that is
either Python `None` or a one-character uppercase string among
A, B, C, D — never lowercase, multi-character, or anything else. -/
theorem mistakes_wellformed (A : Question → Nat → AttemptOutcome)
    (qs : List Question)
    (h : ∀ q ∈ qs, q.solution ∈ [['A'], ['B'], ['C'], ['D']]) :
    ∀ mk ∈ (runEvalState A qs).mistakes,
      mk.correct_answer ∈ [['A'], ['B'], ['C'], ['D']] ∧
      (mk.llm_answer = none ∨
        ∃ c, mk.llm_answer = some [c] ∧ c ∈ ['A', 'B', 'C', 'D']) := by
  intro mk hmk
  rcases runLoop_mistakes_mem qs ⟨0, 0, [], []⟩ mk hmk with hin | ⟨q, hq, rfl⟩
  · exact absurd hin (List.not_mem_nil mk)
  · refine ⟨h q hq, ?_⟩
    cases hans : (ask_llm (A q) 5).answer with
    | none => exact Or.inl rfl
    | some r =>
      obtain ⟨c, rfl, hc⟩ := askLoop_answer_shape ((5 : Int).toNat) 0 hans
      exact Or.inr ⟨c, rfl, hc⟩

/-- Witness for claim C8 at a concrete mistake of a concrete run. -/
theorem mistakes_wellformed_witness :
    (⟨"2+2?".data, "B".data, none⟩ : Mistake).correct_answer ∈
        [['A'], ['B'], ['C'], ['D']] ∧
    ((⟨"2+2?".data, "B".data, none⟩ : Mistake).llm_answer = none ∨
      ∃ c, (⟨"2+2?".data, "B".data, none⟩ : Mistake).llm_answer = some [c] ∧
        c ∈ ['A', 'B', 'C', 'D']) :=
  mistakes_wellformed alwaysRaise [q22] (by decide)
    ⟨"2+2?".data, "B".data, none⟩ (by decide)

lemma askLoop_waits_pow {A : Nat → AttemptOutcome} :
    ∀ (rem a : Nat) (p : Nat × Nat),
      p ∈ (askLoop A a rem).waits → p.2 = 2 ^ p.1 := by
  intro rem
  induction rem with
  | zero => intro a p h; exact absurd h (by simp [askLoop])
  | succ rem ih =>
    intro a p h
    cases hA : A a with
    | raises =>
      rw [askLoop_raises rem hA] at h
      rcases List.mem_cons.mp h with rfl | h'
      · rfl
      · exact ih (a + 1) p h'
    | falsy =>
      rw [askLoop_falsy rem hA] at h
      exact ih (a + 1) p h
    | truthy ext =>
      cases ext with
      | none =>
        rw [askLoop_truthy_none rem hA] at h
        rcases List.mem_cons.mp h with rfl | h'
        · rfl
        · exact ih (a + 1) p h'
      | some s =>
        cases hs : extract_answer s with
        | none =>
          rw [askLoop_badformat rem hA hs] at h
          exact ih (a + 1) p h
        | some res =>
          by_cases hres : (!res.isEmpty && res.length == 1) = true
          · rw [askLoop_success rem hA hs hres] at h
            exact absurd h (by simp)
          · rw [askLoop_badlen rem hA hs (by simpa using hres)] at h
            exact ih (a + 1) p h

lemma askLoop_waits_mem {A : Nat → AttemptOutcome} :
    ∀ (rem a x : Nat),
    ((x, 2 ^ x) ∈ (askLoop A a rem).waits ↔
      (a ≤ x ∧ x < a + rem ∧
        (∀ b, a ≤ b → b < x → attemptSuccess (A b) = false) ∧
        attemptRaisesLike (A x) = true)) := by
  intro rem
  induction rem with
  | zero =>
    intro a x
    constructor
    · intro h; exact absurd h (by simp [askLoop])
    · rintro ⟨h1, h2, -, -⟩; omega
  | succ rem ih =>
    intro a x
    have hcons : ∀ hA : (x, 2 ^ x) ∈ (a, 2 ^ a) :: (askLoop A (a + 1) rem).waits,
        ∀ hr : attemptRaisesLike (A a) = true,
        ∀ hsf : attemptSuccess (A a) = false,
        (a ≤ x ∧ x < a + (rem + 1) ∧
          (∀ b, a ≤ b → b < x → attemptSuccess (A b) = false) ∧
          attemptRaisesLike (A x) = true) := by
      intro h hr hsf
      rcases List.mem_cons.mp h with heq | h'
      · have hx : x = a := congrArg Prod.fst heq
        subst hx
        exact ⟨le_refl x, by omega,
          fun b hb1 hb2 => absurd (Nat.lt_of_le_of_lt hb1 hb2) (Nat.lt_irrefl x), hr⟩
      · have h2 := (ih (a + 1) x).mp h'
        refine ⟨by omega, by omega, fun b hb1 hb2 => ?_, h2.2.2.2⟩
        by_cases hba : b = a
        · rw [hba]; exact hsf
        · exact h2.2.2.1 b (by omega) hb2
    cases hA : A a with
    | raises =>
      rw [askLoop_raises rem hA]
      constructor
      · intro h
        exact hcons h (by rw [hA]; rfl) (by rw [hA]; rfl)
      · rintro ⟨h1, h2, h3, h4⟩
        by_cases hx : x = a
        · subst hx; exact List.mem_cons_self _ _
        · exact List.mem_cons_of_mem _ ((ih (a + 1) x).mpr
            ⟨by omega, by omega, fun b hb1 hb2 => h3 b (by omega) hb2, h4⟩)
    | falsy =>
      rw [askLoop_falsy rem hA]
      rw [ih (a + 1) x]
      constructor
      · rintro ⟨h1, h2, h3, h4⟩
        refine ⟨by omega, by omega, fun b hb1 hb2 => ?_, h4⟩
        by_cases hba : b = a
        · rw [hba, hA]; rfl
        · exact h3 b (by omega) hb2
      · rintro ⟨h1, h2, h3, h4⟩
        have hxa : x ≠ a := by
          intro hxa
          rw [hxa, hA] at h4
          exact absurd h4 (by decide)
        exact ⟨by omega, by omega, fun b hb1 hb2 => h3 b (by omega) hb2, h4⟩
    | truthy ext =>
      cases ext with
      | none =>
        rw [askLoop_truthy_none rem hA]
        constructor
        · intro h
          exact hcons h (by rw [hA]; rfl) (by rw [hA]; rfl)
        · rintro ⟨h1, h2, h3, h4⟩
          by_cases hx : x = a
          · subst hx; exact List.mem_cons_self _ _
          · exact List.mem_cons_of_mem _ ((ih (a + 1) x).mpr
              ⟨by omega, by omega, fun b hb1 hb2 => h3 b (by omega) hb2, h4⟩)
      | some s =>
        have hrl : attemptRaisesLike (AttemptOutcome.truthy (some s)) = false := rfl
        cases hs : extract_answer s with
        | none =>
          rw [askLoop_badformat rem hA hs]
          rw [ih (a + 1) x]
          have hsf : attemptSuccess (A a) = false := by
            rw [hA]; simp [attemptSuccess, hs]
          constructor
          · rintro ⟨h1, h2, h3, h4⟩
            refine ⟨by omega, by omega, fun b hb1 hb2 => ?_, h4⟩
            by_cases hba : b = a
            · rw [hba]; exact hsf
            · exact h3 b (by omega) hb2
          · rintro ⟨h1, h2, h3, h4⟩
            have hxa : x ≠ a := by
              intro hxa
              rw [hxa, hA, hrl] at h4
              exact absurd h4 (by decide)
            exact ⟨by omega, by omega, fun b hb1 hb2 => h3 b (by omega) hb2, h4⟩
        | some res =>
          by_cases hres : (!res.isEmpty && res.length == 1) = true
          · rw [askLoop_success rem hA hs hres]
            constructor
            · intro h; exact absurd h (by simp)
            · rintro ⟨h1, h2, h3, h4⟩
              by_cases hx : x = a
              · subst hx
                rw [hA, hrl] at h4
                exact absurd h4 (by decide)
              · have hsucc : attemptSuccess (A a) = true := by
                  rw [hA]; simp [attemptSuccess, hs, hres]
                rw [h3 a (le_refl a) (by omega)] at hsucc
                exact absurd hsucc (by decide)
          · rw [askLoop_badlen rem hA hs (by simpa using hres)]
            rw [ih (a + 1) x]
            have hsf : attemptSuccess (A a) = false := by
              rw [hA]; simp [attemptSuccess, hs]
              simpa using hres
            constructor
            · rintro ⟨h1, h2, h3, h4⟩
              refine ⟨by omega, by omega, fun b hb1 hb2 => ?_, h4⟩
              by_cases hba : b = a
              · rw [hba]; exact hsf
              · exact h3 b (by omega) hb2
            · rintro ⟨h1, h2, h3, h4⟩
              have hxa : x ≠ a := by
                intro hxa
                rw [hxa, hA, hrl] at h4
                exact absurd h4 (by decide)
              exact ⟨by omega, by omega, fun b hb1 hb2 => h3 b (by omega) hb2, h4⟩

/-- Counterexample to claim C5 as stated: on both attempts of this
two-attempt `ask_llm` call the send succeeds (outcome is truthy, not a
raise), yet waits of `2 ^ 0` and `2 ^ 1` occur, because the absent
extracted text makes `extract_answer(None)` raise inside the try block;
so a wait does not occur only if the send itself raised. -/
theorem wait_without_send_raise :
    (ask_llm absentTextA 2).waits = [(0, 1), (1, 2)] ∧
    absentTextA 0 = AttemptOutcome.truthy none ∧
    absentTextA 1 = AttemptOutcome.truthy none := by
  decide

/-- Claim C5 (amended): in `ask_llm`, a wait of exactly `2 ^ attempt`
time units occurs if and only if the attempt is reached (it is below
`max_retries` and no earlier attempt returned successfully) and its try
block raised — that is, the send raised, or the send output was truthy
with an absent extracted text (the `AttributeError` case).  Every
recorded wait has duration `2 ^ attempt` for its attempt, an
always-raising adapter waits 1, 2, 4, 8, 16 units on attempts 0..4, and
the empty-output and bad-format branches never wait. -/
theorem backoff_wait_iff (A : Nat → AttemptOutcome) (m : Int) :
    (∀ x : Nat, ((x, 2 ^ x) ∈ (ask_llm A m).waits ↔
      (x < m.toNat ∧ (∀ b, b < x → attemptSuccess (A b) = false) ∧
        attemptRaisesLike (A x) = true))) ∧
    (∀ p ∈ (ask_llm A m).waits, p.2 = 2 ^ p.1) ∧
    (ask_llm (fun _ => AttemptOutcome.raises) 5).waits =
      [(0, 1), (1, 2), (2, 4), (3, 8), (4, 16)] := by
  refine ⟨fun x => ?_, fun p hp => askLoop_waits_pow m.toNat 0 p hp, by decide⟩
  show ((x, 2 ^ x) ∈ (askLoop A 0 m.toNat).waits ↔ _)
  rw [askLoop_waits_mem m.toNat 0 x]
  constructor
  · rintro ⟨-, h2, h3, h4⟩
    exact ⟨by omega, fun b hb => h3 b (Nat.zero_le b) hb, h4⟩
  · rintro ⟨h1, h2, h3⟩
    exact ⟨Nat.zero_le x, by omega, fun b _ hb => h2 b hb, h3⟩

/-- Witness for the amended claim C5: attempt 0 of an always-raising
adapter records the wait `(0, 2 ^ 0)`. -/
theorem backoff_wait_iff_witness :
    (0, 2 ^ 0) ∈ (ask_llm (fun _ => AttemptOutcome.raises) 5).waits :=
  ((backoff_wait_iff (fun _ => AttemptOutcome.raises) 5).1 0).mpr
    ⟨by decide, fun b hb => absurd hb (Nat.not_lt_zero b), rfl⟩

lemma processQ_parts (A : Question → Nat → AttemptOutcome) (st : RunState)
    (q : Question) :
    (processQ A st q).pbar = st.pbar + 1 ∧
    (processQ A st q).accs = st.accs ++
      [(((processQ A st q).correct : Nat) : ℚ) / ((st.pbar : ℚ) + 1) * 100] := by
  unfold processQ
  by_cases hc : (ask_llm (A q) 5).answer = some q.solution
  · rw [if_pos hc]
    exact ⟨rfl, rfl⟩
  · rw [if_neg hc]
    exact ⟨rfl, rfl⟩

lemma runLoop_append (A : Question → Nat → AttemptOutcome) :
    ∀ (l₁ l₂ : List Question) (st : RunState),
    runLoop A st (l₁ ++ l₂) = runLoop A (runLoop A st l₁) l₂ := by
  intro l₁
  induction l₁ with
  | nil => intro l₂ st; rfl
  | cons q t ih =>
    intro l₂ st
    simp only [List.cons_append, runLoop]
    exact ih l₂ (processQ A st q)

lemma runLoop_pbar (A : Question → Nat → AttemptOutcome) :
    ∀ (qs : List Question) (st : RunState),
    (runLoop A st qs).pbar = st.pbar + qs.length := by
  intro qs
  induction qs with
  | nil => intro st; simp [runLoop]
  | cons q t ih =>
    intro st
    simp only [runLoop, List.length_cons]
    rw [ih, (processQ_parts A st q).1]
    omega

lemma runLoop_accs_len (A : Question → Nat → AttemptOutcome) :
    ∀ (qs : List Question) (st : RunState),
    (runLoop A st qs).accs.length = st.accs.length + qs.length := by
  intro qs
  induction qs with
  | nil => intro st; simp [runLoop]
  | cons q t ih =>
    intro st
    simp only [runLoop, List.length_cons]
    rw [ih, (processQ_parts A st q).2]
    simp only [List.length_append, List.length_cons, List.length_nil]
    omega

lemma runLoop_accs_ext (A : Question → Nat → AttemptOutcome) :
    ∀ (qs : List Question) (st : RunState),
    ∃ r, (runLoop A st qs).accs = st.accs ++ r := by
  intro qs
  induction qs with
  | nil => intro st; exact ⟨[], by simp [runLoop]⟩
  | cons q t ih =>
    intro st
    obtain ⟨r, hr⟩ := ih (processQ A st q)
    refine ⟨[(((processQ A st q).correct : Nat) : ℚ) /
      ((st.pbar : ℚ) + 1) * 100] ++ r, ?_⟩
    simp only [runLoop]
    rw [hr, (processQ_parts A st q).2, List.append_assoc]

lemma runEvalState_last_acc (A : Question → Nat → AttemptOutcome)
    (l : List Question) (q : Question) :
    (runEvalState A (l ++ [q])).accs[l.length]? =
      some ((((runEvalState A (l ++ [q])).correct : Nat) : ℚ) /
        ((l.length : ℚ) + 1) * 100) := by
  have hsplit : runEvalState A (l ++ [q]) = processQ A (runEvalState A l) q := by
    unfold runEvalState
    rw [runLoop_append]
    rfl
  have hlen : (runEvalState A l).accs.length = l.length := by
    simpa [runEvalState] using runLoop_accs_len A l ⟨0, 0, [], []⟩
  have hpbar : (runEvalState A l).pbar = l.length := by
    simpa [runEvalState] using runLoop_pbar A l ⟨0, 0, [], []⟩
  rw [hsplit, (processQ_parts A (runEvalState A l) q).2, hpbar, ← hlen]
  exact List.getElem?_concat_length _ _

/-- Claim C9: the running accuracy figure emitted after processing the
1-based question number `i + 1` (the entry of index `i` in the emitted
sequence) equals the correct count so far divided by the number of
questions processed so far including the current one, times 100: the
denominator `progress_bar.n + 1` equals `i + 1` there. -/
theorem running_accuracy (A : Question → Nat → AttemptOutcome)
    (qs : List Question) (i : Nat) (h : i < qs.length) :
    (runEvalState A qs).accs[i]? =
      some ((((runEvalState A (qs.take (i + 1))).correct : Nat) : ℚ) /
        ((i : ℚ) + 1) * 100) := by
  have hsplit : runEvalState A qs =
      runLoop A (runEvalState A (qs.take (i + 1))) (qs.drop (i + 1)) := by
    conv_lhs => rw [← List.take_append_drop (i + 1) qs]
    unfold runEvalState
    rw [runLoop_append]
  rw [hsplit]
  obtain ⟨r, hr⟩ := runLoop_accs_ext A (qs.drop (i + 1))
    (runEvalState A (qs.take (i + 1)))
  have hlen : (runEvalState A (qs.take (i + 1))).accs.length = i + 1 := by
    have hl := runLoop_accs_len A (qs.take (i + 1)) ⟨0, 0, [], []⟩
    have : (qs.take (i + 1)).length = i + 1 := by
      rw [List.length_take]
      omega
    simpa [runEvalState, this] using hl
  rw [hr, List.getElem?_append_left (by omega)]
  have htake : qs.take (i + 1) = qs.take i ++ [qs[i]] := by
    rw [List.take_succ, List.getElem?_eq_getElem h]
    rfl
  rw [htake]
  have hlast := runEvalState_last_acc A (qs.take i) qs[i]
  have hti : (qs.take i).length = i := by
    rw [List.length_take]
    omega
  rw [hti] at hlast
  exact hlast

/-- Witness for claim C9 on a concrete one-question run. -/
theorem running_accuracy_witness :
    (runEvalState alwaysRaise [q22]).accs[0]? =
      some ((((runEvalState alwaysRaise ([q22].take (0 + 1))).correct : Nat) : ℚ) /
        (((0 : Nat) : ℚ) + 1) * 100) :=
  running_accuracy alwaysRaise [q22] 0 (by decide)
